import Mathlib

/-!
Shallow embedding of the NetKet Metropolis-Hastings sampling core:
`netket/sampler/metropolis.py` (sampler state, sweep loop) and
`netket/sampler/rules/exchange.py` (exchange rule, cluster table).

Modelling conventions:
* a configuration (one row of the `(n_chains, n_sites)` jax array) is a
  `List Int` of site values; the batch dimension, which has fixed size
  `n_chains`, is a function `Fin n_chains → Config`;
* floating point log-weights are modelled over an arbitrary linear ordered
  field `R`; `jnp.exp` is an abstract function `exp : R → R` supplied by the
  environment (its analytic properties are irrelevant to the claims);
* the jax PRNG primitives (`jax.random.split`, `uniform`, `randint`) are pure
  deterministic functions of the key, exactly as in jax; they are bundled in
  a `JaxRandom` record and the key type `K` is abstract;
* the machine is the external scoring function; only the real part of its
  log-amplitude is consumed by the sampler (`machine(parameters, σ).real`),
  so it is modelled directly as `machine : P → Config → R`.
-/

set_option linter.unusedSectionVars false

namespace Netket

/-- One configuration: a fixed-length vector of discrete site values,
one row of the `(n_chains, n_sites)` batch. -/
abbrev Config := List Int

/-- The jax numeric/PRNG environment consumed by `MetropolisSampler._sample_next`:
`jax.random.split` (into 2 and into 3 keys), `jax.random.uniform` producing a
shape-`(n_chains,)` batch of variates, `jax.random.randint` producing a
shape-`(n_chains,)` batch of integers below `maxval`, and `jnp.exp`.
All are pure functions of the key, as in jax. -/
structure JaxRandom (R K : Type) (n_chains : ℕ) where
  split2 : K → K × K
  split3 : K → K × K × K
  uniform : K → Fin n_chains → R
  randint : K → (maxval : ℕ) → Fin n_chains → ℕ
  exp : R → R

/-- A Metropolis transition rule (`MetropolisRule`): `init_state` builds the
rule's private state from the rule seed; `transition` maps a key and the
current configuration batch to a proposed batch together with an optional
per-chain log-probability correction (`None` for symmetric rules).
`P` is the machine-parameter type, `RS` the rule-state type. -/
structure MetropolisRule (R K P RS : Type) (n_chains : ℕ) where
  init_state : P → K → RS
  transition : P → RS → K → (Fin n_chains → Config) → (Fin n_chains → Config) × Option (Fin n_chains → R)

/-- The sampler configuration (`MetropolisSampler`): hilbert size, number of
sweeps, machine power and the transition rule. `n_chains` is the batch size. -/
structure MetropolisSampler (R K P RS : Type) (n_chains : ℕ) where
  n_sites : ℕ
  n_sweeps : ℕ
  machine_pow : R
  rule : MetropolisRule R K P RS n_chains

/-- `MetropolisSamplerState`: current configuration batch, rng key, optional
rule state, and the two running counters (`n_samples` counts attempted moves,
`n_accepted` accepted moves). -/
structure MetropolisSamplerState (K RS : Type) (n_chains : ℕ) where
  σ : Fin n_chains → Config
  rng : K
  rule_state : RS
  n_samples : ℕ
  n_accepted : ℕ

/-- The loop scope of `_sample_next` (`loops.Scope`): running key, running
configuration batch, running log-probabilities and running accepted counter. -/
structure SweepScope (R K : Type) (n_chains : ℕ) where
  key : K
  σ : Fin n_chains → Config
  log_prob : Fin n_chains → R
  accepted : ℕ

section Sampler

variable {R K P RS : Type} {n_chains : ℕ} [LinearOrderedField R]

variable (jax : JaxRandom R K n_chains)
variable (sampler : MetropolisSampler R K P RS n_chains)
variable (machine : P → Config → R) (params : P)

/-- `s.key, key1, key2 = jax.random.split(s.key, 3)` at the top of one sweep
round: the running key for the next round, the transition-kernel key, and the
uniform-variate key. -/
def roundKeys (s : SweepScope R K n_chains) : K × K × K :=
  jax.split3 s.key

/-- `σp, log_prob_correction = sampler.rule.transition(..., key1, s.σ)`:
the proposal of one sweep round. `state` is the (outer) sampler state whose
`rule_state` the rule may read. -/
def roundProposal (state : MetropolisSamplerState K RS n_chains)
    (s : SweepScope R K n_chains) :
    (Fin n_chains → Config) × Option (Fin n_chains → R) :=
  sampler.rule.transition params state.rule_state (roundKeys jax s).2.1 s.σ

/-- `proposal_log_prob = sampler.machine_pow * machine(parameters, σp).real`,
computed per chain. -/
def proposal_log_prob (state : MetropolisSamplerState K RS n_chains)
    (s : SweepScope R K n_chains) : Fin n_chains → R :=
  fun i => sampler.machine_pow * machine params ((roundProposal jax sampler params state s).1 i)

/-- `uniform = jax.random.uniform(key2, shape=(sampler.n_chains,))`. -/
def roundUniform (s : SweepScope R K n_chains) : Fin n_chains → R :=
  jax.uniform (roundKeys jax s).2.2

/-- The per-chain acceptance flag of one sweep round:
`uniform < exp(proposal_log_prob - s.log_prob + log_prob_correction)` when the
rule returned a correction, `uniform < exp(proposal_log_prob - s.log_prob)`
when it returned `None`. -/
def do_accept (state : MetropolisSamplerState K RS n_chains)
    (s : SweepScope R K n_chains) (i : Fin n_chains) : Bool :=
  match (roundProposal jax sampler params state s).2 with
  | some corr =>
      decide (roundUniform jax s i <
        jax.exp (proposal_log_prob jax sampler machine params state s i - s.log_prob i + corr i))
  | none =>
      decide (roundUniform jax s i <
        jax.exp (proposal_log_prob jax sampler machine params state s i - s.log_prob i))

/-- The effective per-chain log-probability correction of one sweep round:
the rule's correction where `transition` returned one, and zero where it
returned `None` (the correction is then omitted from the acceptance ratio). -/
def roundCorrection (state : MetropolisSamplerState K RS n_chains)
    (s : SweepScope R K n_chains) (i : Fin n_chains) : R :=
  match (roundProposal jax sampler params state s).2 with
  | some corr => corr i
  | none => 0

/-- The number of chains whose proposal is accepted in one sweep round
started from scope `s`: `do_accept.sum()`. -/
def roundAcceptCount (state : MetropolisSamplerState K RS n_chains)
    (s : SweepScope R K n_chains) : ℕ :=
  ∑ i, if do_accept jax sampler machine params state s i then 1 else 0

/-- The body of the `for i in s.range(sampler.n_sweeps)` loop of
`_sample_next`: select `σp` where accepted else keep `σ`, add the number of
accept flags to the running counter, and update the running log-probability
for the accepted chains. -/
def sweepStep (state : MetropolisSamplerState K RS n_chains)
    (s : SweepScope R K n_chains) : SweepScope R K n_chains where
  key := (roundKeys jax s).1
  σ := fun i => if do_accept jax sampler machine params state s i
    then (roundProposal jax sampler params state s).1 i else s.σ i
  log_prob := fun i => if do_accept jax sampler machine params state s i
    then proposal_log_prob jax sampler machine params state s i else s.log_prob i
  accepted := s.accepted + ∑ i, if do_accept jax sampler machine params state s i then 1 else 0

/-- The initial loop scope of `_sample_next`: the second key returned by
`jax.random.split(state.rng)`, the state's batch, the batch's
log-probabilities `machine_pow * machine(parameters, state.σ).real`, and the
state's accepted counter. -/
def initScope (state : MetropolisSamplerState K RS n_chains) : SweepScope R K n_chains where
  key := (jax.split2 state.rng).2
  σ := state.σ
  log_prob := fun i => sampler.machine_pow * machine params (state.σ i)
  accepted := state.n_accepted

/-- `MetropolisSampler._sample_next`: split the state's rng key, run
`n_sweeps` sweep rounds starting from the current batch and its
log-probabilities, and return the new sampler state (new rng key, final
batch, accumulated accepted counter, `n_samples` incremented by
`n_sweeps * n_chains`) together with the final configurations. -/
def sample_next (state : MetropolisSamplerState K RS n_chains) :
    MetropolisSamplerState K RS n_chains × (Fin n_chains → Config) :=
  let new_rng := (jax.split2 state.rng).1
  let s := (sweepStep jax sampler machine params state)^[sampler.n_sweeps]
    (initScope jax sampler machine params state)
  let new_state : MetropolisSamplerState K RS n_chains :=
    { state with
      rng := new_rng
      σ := s.σ
      n_accepted := s.accepted
      n_samples := state.n_samples + sampler.n_sweeps * n_chains }
  (new_state, new_state.σ)

/-- `MetropolisSampler._init_state`: split the key into a state seed and a
rule seed, build the zero-filled `(n_chains, n_sites)` batch, and delegate
rule-state construction to the rule's `init_state`. -/
def _init_state (key : K) : MetropolisSamplerState K RS n_chains :=
  let ks := jax.split2 key
  let key_state := ks.1
  let key_rule := ks.2
  let σ : Fin n_chains → Config := fun _ => List.replicate sampler.n_sites 0
  let rule_state := sampler.rule.init_state params key_rule
  { σ := σ, rng := key_state, rule_state := rule_state, n_samples := 0, n_accepted := 0 }

end Sampler

/-- A graph topology as consumed by `compute_clusters`: only the pairwise
distance table `graph.distances()` is read, a `size × size` matrix. -/
structure Graph where
  size : ℕ
  distances : ℕ → ℕ → ℤ

/-- `compute_clusters(graph, d_max)` from `rules/exchange.py`: the double loop
`for i in range(size): for j in range(i + 1, size): if distances[i][j] <= d_max:
clusters.append((i, j))`, producing the ordered list of pairs. -/
def compute_clusters (graph : Graph) (d_max : ℤ) : List (ℕ × ℕ) :=
  (List.range graph.size).flatMap fun i =>
    ((List.range' (i + 1) (graph.size - (i + 1))).filter
      (fun j => graph.distances i j ≤ d_max)).map fun j => (i, j)

/-- The body of `scalar_update_fun` inside `ExchangeRule_.transition`: read the
two sites `si = clusters[cluster, 0]`, `sj = clusters[cluster, 1]` and produce
`index_update(index_update(σ, si, σ[sj]), sj, σ[si])`. -/
def scalar_update_fun (clusters : List (ℕ × ℕ)) (σ : Config) (cluster : ℕ) : Config :=
  let si := (clusters.getD cluster (0, 0)).1
  let sj := (clusters.getD cluster (0, 0)).2
  let σp := σ.set si (σ.getD sj 0)
  σp.set sj (σ.getD si 0)

/-- `ExchangeRule_.transition`: draw one cluster id per chain with
`jax.random.randint(key, (n_chains,), 0, clusters.shape[0])`, apply
`scalar_update_fun` to every row (`jax.vmap`), and return no log-probability
correction. -/
def exchange_transition {R K P RS : Type} {n_chains : ℕ}
    (jax : JaxRandom R K n_chains) (clusters : List (ℕ × ℕ)) :
    P → RS → K → (Fin n_chains → Config) →
      (Fin n_chains → Config) × Option (Fin n_chains → R) :=
  fun _params _rule_state key σ =>
    let cluster_id := jax.randint key clusters.length
    (fun i => scalar_update_fun clusters (σ i) (cluster_id i), none)

/-- The `ExchangeRule` factory function of `rules/exchange.py`: with a graph
and no explicit clusters it computes the cluster table; with explicit clusters
and no graph it uses them; in every other case it raises `ValueError`.
The produced value is the `ExchangeRule_` payload, its cluster table. -/
def ExchangeRule (clusters : Option (List (ℕ × ℕ))) (graph : Option Graph)
    (d_max : ℤ) : Except String (List (ℕ × ℕ)) :=
  if clusters.isNone && graph.isSome then
    Except.ok (compute_clusters (graph.getD ⟨0, fun _ _ => 0⟩) d_max)
  else if !(clusters.isSome && graph.isNone) then
    Except.error "You must either provide the list of exchange-clusters or a netket graph"
  else
    Except.ok (clusters.getD [])

/-- The acceptance-rate expression of `MetropolisSamplerState.__repr__`:
`acceptance_rate = self.n_accepted / self.n_samples * 100`. Its counters are
Python integers, so when `n_samples == 0` the division raises
`ZeroDivisionError` and no value is produced, modelled as `none`. -/
def repr_acceptance_rate {K RS : Type} {n_chains : ℕ}
    (state : MetropolisSamplerState K RS n_chains) : Option ℚ :=
  if state.n_samples = 0 then none
  else some ((state.n_accepted : ℚ) / (state.n_samples : ℚ) * 100)

/-- Modelled from the spec: the configuration-space arity validation of the
sampler construction lives in `netket/sampler/base.py`, which is not among the
sources (only its subclass `MetropolisSampler` in `metropolis.py` is). The
spec states: "Fails if `n_chains ≤ 0` or `n_sites ≤ 0` (configuration-space
arity error)." The checked state constructor raises that error, producing no
state, and otherwise builds `_init_state`'s result with the validated sizes. -/
def init_state_checked {R K P RS : Type} [LinearOrderedField R]
    (n_chains n_sites : ℤ)
    (jax : JaxRandom R K n_chains.toNat) (n_sweeps : ℕ) (machine_pow : R)
    (rule : MetropolisRule R K P RS n_chains.toNat) (params : P) (key : K) :
    Except String (MetropolisSamplerState K RS n_chains.toNat) :=
  if n_chains ≤ 0 ∨ n_sites ≤ 0 then
    Except.error "configuration-space arity error"
  else
    Except.ok (_init_state jax
      { n_sites := n_sites.toNat, n_sweeps := n_sweeps
        machine_pow := machine_pow, rule := rule }
      params key)

/-- Strict lexicographic order on index pairs, the enumeration order of
`compute_clusters`. -/
def pairLexLt (a b : ℕ × ℕ) : Prop :=
  a.1 < b.1 ∨ (a.1 = b.1 ∧ a.2 < b.2)

/-! Concrete instances used to witness the theorems below: a two-chain
sampler over `ℚ` with natural-number keys, a trivial identity rule and an
exchange rule with the single cluster `(0, 1)`. -/

/-- A concrete deterministic jax environment on two chains over `ℚ`. -/
def testJax : JaxRandom ℚ ℕ 2 where
  split2 := fun k => (2 * k + 1, 2 * k + 2)
  split3 := fun k => (3 * k + 1, 3 * k + 2, 3 * k + 3)
  uniform := fun _ _ => 1 / 2
  randint := fun _ _ _ => 0
  exp := fun x => x + 1

/-- A trivial symmetric rule proposing the current configuration again. -/
def testRule : MetropolisRule ℚ ℕ Unit Unit 2 where
  init_state := fun _ _ => ()
  transition := fun _ _ _ σ => (σ, none)

/-- A concrete two-chain sampler configuration. -/
def testSampler : MetropolisSampler ℚ ℕ Unit Unit 2 where
  n_sites := 2
  n_sweeps := 1
  machine_pow := 2
  rule := testRule

/-- A concrete constant machine. -/
def testMachine : Unit → Config → ℚ := fun _ _ => 0

/-- A concrete fresh sampler state on two chains. -/
def testState : MetropolisSamplerState ℕ Unit 2 where
  σ := fun _ => [1, -1]
  rng := 0
  rule_state := ()
  n_samples := 0
  n_accepted := 0

/-- The state `testState` after two attempted and one accepted move. -/
def testState12 : MetropolisSamplerState ℕ Unit 2 :=
  { testState with n_accepted := 1, n_samples := 2 }

/-- An exchange rule on two chains with the single cluster `(0, 1)`. -/
def testExchangeRule : MetropolisRule ℚ ℕ Unit Unit 2 where
  init_state := fun _ _ => ()
  transition := exchange_transition testJax [(0, 1)]

/-- The concrete sampler with the exchange rule plugged in. -/
def testExchangeSampler : MetropolisSampler ℚ ℕ Unit Unit 2 :=
  { testSampler with rule := testExchangeRule }

/-- A concrete jax environment on zero chains (for the arity-error witness). -/
def testJax0 : JaxRandom ℚ ℕ 0 where
  split2 := fun k => (k, k)
  split3 := fun k => (k, k, k)
  uniform := fun _ i => i.elim0
  randint := fun _ _ i => i.elim0
  exp := fun x => x

/-- A trivial rule on zero chains (for the arity-error witness). -/
def testRule0 : MetropolisRule ℚ ℕ Unit Unit 0 where
  init_state := fun _ _ => ()
  transition := fun _ _ _ σ => (σ, none)

/-- A concrete three-site path graph (distances are index differences). -/
def testGraph : Graph where
  size := 3
  distances := fun i j => |(i : ℤ) - (j : ℤ)|

/-! Theorems. -/

section SamplerTheorems

variable {R K P RS : Type} {n_chains : ℕ} [LinearOrderedField R]
variable (jax : JaxRandom R K n_chains)
variable (sampler : MetropolisSampler R K P RS n_chains)
variable (machine : P → Config → R) (params : P)

/-- C7: `_init_state` splits the key into a state seed and a rule seed,
returns a state whose batch is zero-filled with `n_chains` rows of length
`n_sites`, whose rule state is built by the rule's `init_state` on the rule
seed, and whose counters are both zero. -/
theorem C7_init_state_fields (key : K) :
    (_init_state jax sampler params key).rng = (jax.split2 key).1 ∧
    (_init_state jax sampler params key).rule_state =
      sampler.rule.init_state params (jax.split2 key).2 ∧
    (∀ i, (_init_state jax sampler params key).σ i =
      List.replicate sampler.n_sites 0) ∧
    (∀ i, ((_init_state jax sampler params key).σ i).length = sampler.n_sites) ∧
    (_init_state jax sampler params key).n_samples = 0 ∧
    (_init_state jax sampler params key).n_accepted = 0 := by
  refine ⟨rfl, rfl, fun i => rfl, fun i => ?_, rfl, rfl⟩
  simp [_init_state]

/-- C10: the state returned by `sample_next` carries the input state's
`rule_state` unchanged; only the configurations, the rng key and the two
counters are replaced. -/
theorem C10_rule_state_unchanged (state : MetropolisSamplerState K RS n_chains) :
    ((sample_next jax sampler machine params state).1).rule_state = state.rule_state :=
  rfl

/-- C2: `sample_next` is a pure deterministic function of the jax
environment, the sampler, the machine, the parameters and the state; two
calls on identical inputs produce identical outputs. -/
theorem C2_reproducible (s1 s2 : MetropolisSamplerState K RS n_chains)
    (h : s1 = s2) :
    sample_next jax sampler machine params s1 =
      sample_next jax sampler machine params s2 := by
  rw [h]

end SamplerTheorems

/-- C2 witness: the two calls on the concrete test instance coincide. -/
theorem C2_reproducible_witness :
    sample_next testJax testSampler testMachine () testState =
      sample_next testJax testSampler testMachine () testState :=
  C2_reproducible testJax testSampler testMachine () testState testState rfl

/-- C5: constructing an `ExchangeRule` succeeds exactly when exactly one of
the explicit cluster list and the graph is supplied; with both or neither it
produces the `ValueError` and no rule value. -/
theorem C5_exchange_rule_validation (clusters : Option (List (ℕ × ℕ)))
    (graph : Option Graph) (d_max : ℤ) :
    ((∃ r, ExchangeRule clusters graph d_max = Except.ok r) ↔
      ((clusters = none ∧ graph ≠ none) ∨ (clusters ≠ none ∧ graph = none))) ∧
    (¬((clusters = none ∧ graph ≠ none) ∨ (clusters ≠ none ∧ graph = none)) →
      ExchangeRule clusters graph d_max =
        Except.error "You must either provide the list of exchange-clusters or a netket graph") := by
  cases clusters <;> cases graph <;> simp [ExchangeRule]

/-- C5 witness: supplying only an explicit cluster list succeeds. -/
theorem C5_exchange_rule_validation_witness :
    ∃ r, ExchangeRule (some [(0, 1)]) none 1 = Except.ok r :=
  (C5_exchange_rule_validation (some [(0, 1)]) none 1).1.mpr
    (Or.inr ⟨by simp, rfl⟩)

/-- C8: the checked state constructor fails with the configuration-space
arity error, producing no state, whenever `n_chains ≤ 0` or `n_sites ≤ 0`. -/
theorem C8_arity_validation {R K P RS : Type} [LinearOrderedField R]
    (n_chains n_sites : ℤ)
    (jax : JaxRandom R K n_chains.toNat) (n_sweeps : ℕ) (machine_pow : R)
    (rule : MetropolisRule R K P RS n_chains.toNat) (params : P) (key : K)
    (h : n_chains ≤ 0 ∨ n_sites ≤ 0) :
    init_state_checked n_chains n_sites jax n_sweeps machine_pow rule params key =
      Except.error "configuration-space arity error" ∧
    ∀ st, init_state_checked n_chains n_sites jax n_sweeps machine_pow rule params key ≠
      Except.ok st := by
  unfold init_state_checked
  rw [if_pos h]
  exact ⟨rfl, fun st h2 => Except.noConfusion h2⟩

/-- C8 witness: zero chains trigger the arity error. -/
theorem C8_arity_validation_witness :
    ((0 : ℤ) ≤ 0 ∨ (4 : ℤ) ≤ 0) ∧
    init_state_checked 0 4 testJax0 1 (2 : ℚ) testRule0 () 0 =
      Except.error "configuration-space arity error" :=
  ⟨Or.inl le_rfl,
    (C8_arity_validation 0 4 testJax0 1 2 testRule0 () 0 (Or.inl le_rfl)).1⟩

/-- C9 counterexample: on the concrete state with one accepted of two
attempted moves the `__repr__` expression yields `50`, not
`accepted / attempted = 1/2` (it is the rate in percent); and on a fresh
state with `attempted == 0` the division produces no value at all
(`ZeroDivisionError`), rather than a not-a-number value. -/
theorem C9_acceptance_rate_counterexample :
    repr_acceptance_rate testState12 = some 50 ∧ (50 : ℚ) ≠ 1 / 2 ∧
    repr_acceptance_rate testState = none := by
  refine ⟨?_, by norm_num, rfl⟩
  simp only [repr_acceptance_rate, testState12, testState]
  norm_num

/-- C9 (amended): the `__repr__` acceptance-rate expression equals
`accepted / attempted * 100` (the rate in percent) whenever `attempted ≠ 0`,
and when `attempted == 0` the integer division raises `ZeroDivisionError`,
producing no value. -/
theorem C9_acceptance_rate {K RS : Type} {n_chains : ℕ}
    (state : MetropolisSamplerState K RS n_chains) :
    (state.n_samples ≠ 0 →
      repr_acceptance_rate state =
        some ((state.n_accepted : ℚ) / (state.n_samples : ℚ) * 100)) ∧
    (state.n_samples = 0 → repr_acceptance_rate state = none) := by
  unfold repr_acceptance_rate
  constructor <;> intro h <;> simp [h]

/-- C9 witness: the amended description evaluated on the concrete state with
two attempted moves. -/
theorem C9_acceptance_rate_witness :
    testState12.n_samples ≠ 0 ∧
    repr_acceptance_rate testState12 =
      some ((testState12.n_accepted : ℚ) / (testState12.n_samples : ℚ) * 100) :=
  ⟨by decide, (C9_acceptance_rate testState12).1 (by decide)⟩

section SweepTheorems

variable {R K P RS : Type} {n_chains : ℕ} [LinearOrderedField R]
variable (jax : JaxRandom R K n_chains)
variable (sampler : MetropolisSampler R K P RS n_chains)
variable (machine : P → Config → R) (params : P)

/-- The two acceptance branches of `_sample_next` coincide with a single
comparison against the effective correction, which is zero when the rule
returned `None`. -/
theorem do_accept_eq_correction (state : MetropolisSamplerState K RS n_chains)
    (s : SweepScope R K n_chains) (i : Fin n_chains) :
    do_accept jax sampler machine params state s i =
      decide (roundUniform jax s i <
        jax.exp (proposal_log_prob jax sampler machine params state s i - s.log_prob i +
          roundCorrection jax sampler params state s i)) := by
  unfold do_accept roundCorrection
  cases (roundProposal jax sampler params state s).2 <;> simp

/-- C1: in one sweep round, chain `i` accepts iff its uniform variate is
strictly below `exp(proposal_log_prob - log_prob + correction)` with the
correction taken as zero when `transition` returned `None`; on acceptance the
chain's configuration and log-probability are replaced by the proposed ones,
otherwise both are kept; the accepted counter grows by the sum of the accept
flags. -/
theorem C1_accept_iff (state : MetropolisSamplerState K RS n_chains)
    (s : SweepScope R K n_chains) (i : Fin n_chains) :
    ((sweepStep jax sampler machine params state s).σ i =
      if roundUniform jax s i <
          jax.exp (proposal_log_prob jax sampler machine params state s i - s.log_prob i +
            roundCorrection jax sampler params state s i)
        then (roundProposal jax sampler params state s).1 i else s.σ i) ∧
    ((sweepStep jax sampler machine params state s).log_prob i =
      if roundUniform jax s i <
          jax.exp (proposal_log_prob jax sampler machine params state s i - s.log_prob i +
            roundCorrection jax sampler params state s i)
        then proposal_log_prob jax sampler machine params state s i else s.log_prob i) ∧
    ((sweepStep jax sampler machine params state s).accepted =
      s.accepted + roundAcceptCount jax sampler machine params state s) := by
  refine ⟨?_, ?_, rfl⟩ <;>
  · show (if do_accept jax sampler machine params state s i then _ else _) = _
    rw [do_accept_eq_correction]
    simp

/-- The accepted field of one sweep step, by definition. -/
theorem sweepStep_accepted (state : MetropolisSamplerState K RS n_chains)
    (s : SweepScope R K n_chains) :
    (sweepStep jax sampler machine params state s).accepted =
      s.accepted + roundAcceptCount jax sampler machine params state s :=
  rfl

/-- Accepted counter after `n` sweep rounds: the start value plus the
per-round accept counts. -/
theorem iterate_sweepStep_accepted (state : MetropolisSamplerState K RS n_chains)
    (n : ℕ) (s : SweepScope R K n_chains) :
    ((sweepStep jax sampler machine params state)^[n] s).accepted =
      s.accepted + ∑ t ∈ Finset.range n,
        roundAcceptCount jax sampler machine params state
          ((sweepStep jax sampler machine params state)^[t] s) := by
  induction n with
  | zero => simp
  | succ n ih =>
      rw [Function.iterate_succ_apply', sweepStep_accepted, ih, Finset.sum_range_succ]
      omega

/-- At most `n_chains` chains accept in one round. -/
theorem roundAcceptCount_le (state : MetropolisSamplerState K RS n_chains)
    (s : SweepScope R K n_chains) :
    roundAcceptCount jax sampler machine params state s ≤ n_chains := by
  unfold roundAcceptCount
  calc (∑ i, if do_accept jax sampler machine params state s i then 1 else 0) ≤
      ∑ _i : Fin n_chains, 1 :=
        Finset.sum_le_sum fun i _ => by split <;> simp
    _ = n_chains := by simp

/-- C3: `sample_next` adds `n_sweeps * n_chains` to the attempted counter,
adds the total of the per-round accept counts to the accepted counter, and
preserves `accepted ≤ attempted` (both counters are naturals, so
`0 ≤ accepted` always holds). -/
theorem C3_counters (state : MetropolisSamplerState K RS n_chains)
    (h : state.n_accepted ≤ state.n_samples) :
    ((sample_next jax sampler machine params state).1.n_samples =
      state.n_samples + sampler.n_sweeps * n_chains) ∧
    ((sample_next jax sampler machine params state).1.n_accepted =
      state.n_accepted + ∑ t ∈ Finset.range sampler.n_sweeps,
        roundAcceptCount jax sampler machine params state
          ((sweepStep jax sampler machine params state)^[t]
            (initScope jax sampler machine params state))) ∧
    (sample_next jax sampler machine params state).1.n_accepted ≤
      (sample_next jax sampler machine params state).1.n_samples := by
  have hacc : (sample_next jax sampler machine params state).1.n_accepted =
      state.n_accepted + ∑ t ∈ Finset.range sampler.n_sweeps,
        roundAcceptCount jax sampler machine params state
          ((sweepStep jax sampler machine params state)^[t]
            (initScope jax sampler machine params state)) :=
    iterate_sweepStep_accepted jax sampler machine params state sampler.n_sweeps
      (initScope jax sampler machine params state)
  refine ⟨rfl, hacc, ?_⟩
  have hbound : (∑ t ∈ Finset.range sampler.n_sweeps,
      roundAcceptCount jax sampler machine params state
        ((sweepStep jax sampler machine params state)^[t]
          (initScope jax sampler machine params state))) ≤
      sampler.n_sweeps * n_chains := by
    calc (∑ t ∈ Finset.range sampler.n_sweeps,
        roundAcceptCount jax sampler machine params state
          ((sweepStep jax sampler machine params state)^[t]
            (initScope jax sampler machine params state))) ≤
        ∑ _t ∈ Finset.range sampler.n_sweeps, n_chains :=
          Finset.sum_le_sum fun t _ => roundAcceptCount_le jax sampler machine params state _
      _ = sampler.n_sweeps * n_chains := by
          simp [Finset.sum_const, Finset.card_range, smul_eq_mul]
  rw [hacc]
  show state.n_accepted + _ ≤ state.n_samples + sampler.n_sweeps * n_chains
  omega

end SweepTheorems

/-- C3 witness: the counter accounting on the concrete test instance. -/
theorem C3_counters_witness :
    testState.n_accepted ≤ testState.n_samples ∧
    ((sample_next testJax testSampler testMachine () testState).1.n_samples =
      testState.n_samples + testSampler.n_sweeps * 2 ∧
    (sample_next testJax testSampler testMachine () testState).1.n_accepted =
      testState.n_accepted + ∑ t ∈ Finset.range testSampler.n_sweeps,
        roundAcceptCount testJax testSampler testMachine () testState
          ((sweepStep testJax testSampler testMachine () testState)^[t]
            (initScope testJax testSampler testMachine () testState)) ∧
    (sample_next testJax testSampler testMachine () testState).1.n_accepted ≤
      (sample_next testJax testSampler testMachine () testState).1.n_samples) :=
  ⟨by decide, C3_counters testJax testSampler testMachine () testState (by decide)⟩

/-- C6: `compute_clusters` returns exactly the pairs `(i, j)` with `i < j`,
`j < size` and `distance(i, j) ≤ d_max`, in strictly increasing lexicographic
order (hence without duplicates). -/
theorem C6_compute_clusters (graph : Graph) (d_max : ℤ) :
    (∀ p : ℕ × ℕ, p ∈ compute_clusters graph d_max ↔
      p.1 < p.2 ∧ p.2 < graph.size ∧ graph.distances p.1 p.2 ≤ d_max) ∧
    List.Pairwise pairLexLt (compute_clusters graph d_max) ∧
    (compute_clusters graph d_max).Nodup := by
  have hpair : List.Pairwise pairLexLt (compute_clusters graph d_max) := by
    unfold compute_clusters
    rw [List.flatMap_def, List.pairwise_flatten]
    constructor
    · intro l hl
      simp only [List.mem_map] at hl
      obtain ⟨i, hi, rfl⟩ := hl
      rw [List.pairwise_map]
      refine List.Pairwise.imp ?_ (List.Pairwise.filter _ (List.pairwise_lt_range' _ _))
      intro a b hab
      exact Or.inr ⟨rfl, hab⟩
    · rw [List.pairwise_map]
      refine List.Pairwise.imp ?_ (List.pairwise_lt_range _)
      intro i1 i2 h12 x hx y hy
      simp only [List.mem_map] at hx hy
      obtain ⟨j1, _, rfl⟩ := hx
      obtain ⟨j2, _, rfl⟩ := hy
      exact Or.inl h12
  refine ⟨?_, hpair, ?_⟩
  · rintro ⟨a, b⟩
    unfold compute_clusters
    simp only [List.mem_flatMap, List.mem_map, List.mem_filter, List.mem_range,
      List.mem_range'_1, decide_eq_true_eq, Prod.mk.injEq]
    constructor
    · rintro ⟨i, hi, j, ⟨⟨hj1, hj2⟩, hd⟩, rfl, rfl⟩
      exact ⟨by omega, by omega, hd⟩
    · rintro ⟨h1, h2, hd⟩
      exact ⟨a, by omega, b, ⟨⟨by omega, by omega⟩, hd⟩, rfl, rfl⟩
  · refine hpair.imp ?_
    intro p q hpq heq
    subst heq
    rcases hpq with h | ⟨_, h⟩ <;> exact lt_irrefl _ h

/-- C6 witness: the nearest-neighbour pair `(0, 1)` of the concrete path
graph belongs to its cluster table at cutoff 1. -/
theorem C6_compute_clusters_witness :
    (0, 1) ∈ compute_clusters testGraph 1 :=
  ((C6_compute_clusters testGraph 1).1 (0, 1)).mpr ⟨by decide, by decide, by decide⟩

/-- Pushing a read-out element in front of an updated list is a permutation
of pushing the written element in front of the untouched list. -/
theorem getD_cons_set_perm (xs : List ℤ) (j : ℕ) (x : ℤ) (hj : j < xs.length) :
    (xs.getD j 0 :: xs.set j x).Perm (x :: xs) := by
  induction xs generalizing j with
  | nil => simp at hj
  | cons y ys ih =>
      cases j with
      | zero => simpa using List.Perm.swap x y ys
      | succ j =>
          simp only [List.getD_cons_succ, List.set_cons_succ]
          have h1 : (ys.getD j 0 :: y :: ys.set j x).Perm
              (y :: ys.getD j 0 :: ys.set j x) :=
            List.Perm.swap y (ys.getD j 0) (ys.set j x)
          have h2 : (y :: ys.getD j 0 :: ys.set j x).Perm (y :: x :: ys) :=
            (ih j (Nat.lt_of_succ_lt_succ hj)).cons y
          exact h1.trans (h2.trans (List.Perm.swap x y ys))

/-- Swapping the entries at two in-bounds positions permutes the list. -/
theorem set_set_swap_perm (l : List ℤ) (i j : ℕ) (hi : i < l.length)
    (hj : j < l.length) :
    ((l.set i (l.getD j 0)).set j (l.getD i 0)).Perm l := by
  induction l generalizing i j with
  | nil => simp at hi
  | cons x xs ih =>
      cases i with
      | zero =>
          cases j with
          | zero => simp
          | succ j =>
              simp only [List.getD_cons_zero, List.getD_cons_succ,
                List.set_cons_zero, List.set_cons_succ]
              exact getD_cons_set_perm xs j x (Nat.lt_of_succ_lt_succ hj)
      | succ i =>
          cases j with
          | zero =>
              simp only [List.getD_cons_zero, List.getD_cons_succ,
                List.set_cons_zero, List.set_cons_succ]
              exact getD_cons_set_perm xs i x (Nat.lt_of_succ_lt_succ hi)
          | succ j =>
              simp only [List.getD_cons_succ, List.set_cons_succ]
              exact (ih i j (Nat.lt_of_succ_lt_succ hi)
                (Nat.lt_of_succ_lt_succ hj)).cons x

/-- `scalar_update_fun` permutes the row when the chosen cluster's two sites
are in bounds. -/
theorem scalar_update_fun_perm (clusters : List (ℕ × ℕ)) (σ : Config) (c : ℕ)
    (h1 : (clusters.getD c (0, 0)).1 < σ.length)
    (h2 : (clusters.getD c (0, 0)).2 < σ.length) :
    (scalar_update_fun clusters σ c).Perm σ :=
  set_set_swap_perm σ (clusters.getD c (0, 0)).1 (clusters.getD c (0, 0)).2 h1 h2

/-- `scalar_update_fun` preserves the row length. -/
theorem scalar_update_fun_length (clusters : List (ℕ × ℕ)) (σ : Config) (c : ℕ) :
    (scalar_update_fun clusters σ c).length = σ.length := by
  simp [scalar_update_fun]

/-- `scalar_update_fun` swaps the values at the chosen cluster's two sites
and leaves every other site unchanged. -/
theorem scalar_update_fun_getD (clusters : List (ℕ × ℕ)) (σ : Config) (c : ℕ)
    (h1 : (clusters.getD c (0, 0)).1 < σ.length)
    (h2 : (clusters.getD c (0, 0)).2 < σ.length)
    (hne : (clusters.getD c (0, 0)).1 ≠ (clusters.getD c (0, 0)).2) :
    (scalar_update_fun clusters σ c).getD (clusters.getD c (0, 0)).1 0 =
      σ.getD (clusters.getD c (0, 0)).2 0 ∧
    (scalar_update_fun clusters σ c).getD (clusters.getD c (0, 0)).2 0 =
      σ.getD (clusters.getD c (0, 0)).1 0 ∧
    ∀ k, k ≠ (clusters.getD c (0, 0)).1 → k ≠ (clusters.getD c (0, 0)).2 →
      (scalar_update_fun clusters σ c).getD k 0 = σ.getD k 0 := by
  set si := (clusters.getD c (0, 0)).1 with hsi
  set sj := (clusters.getD c (0, 0)).2 with hsj
  have hlen : (scalar_update_fun clusters σ c).length = σ.length :=
    scalar_update_fun_length clusters σ c
  have hup : scalar_update_fun clusters σ c =
      (σ.set si (σ.getD sj 0)).set sj (σ.getD si 0) := rfl
  refine ⟨?_, ?_, ?_⟩
  · rw [List.getD_eq_getElem _ _ (by omega)]
    simp only [hup]
    rw [List.getElem_set_ne (Ne.symm hne) (by simp; omega)]
    rw [List.getElem_set_self (by simp; omega)]
  · rw [List.getD_eq_getElem _ _ (by omega)]
    simp only [hup]
    rw [List.getElem_set_self (by simp; omega)]
  · intro k hk1 hk2
    by_cases hk : k < σ.length
    · rw [List.getD_eq_getElem _ _ (by omega)]
      simp only [hup]
      rw [List.getElem_set_ne (fun h => hk2 h.symm) (by simp; omega)]
      rw [List.getElem_set_ne (fun h => hk1 h.symm) (by simp; omega)]
      rw [List.getD_eq_getElem _ _ hk]
    · rw [List.getD_eq_default _ _ (by omega), List.getD_eq_default _ _ (by omega)]

section ExchangeTheorems

variable {R K P RS : Type} {n_chains : ℕ} [LinearOrderedField R]
variable (jax : JaxRandom R K n_chains)
variable (sampler : MetropolisSampler R K P RS n_chains)
variable (machine : P → Config → R) (params : P)
variable (clusters : List (ℕ × ℕ))
variable (state : MetropolisSamplerState K RS n_chains)

/-- One sweep round with the exchange rule keeps every row's sum and length:
each accepted row is a swap of the previous one, each rejected row is kept. -/
theorem sweepStep_exchange_invariant
    (Hrule : sampler.rule.transition = exchange_transition jax clusters)
    (Hb : ∀ i : Fin n_chains, ∀ c ∈ clusters,
      c.1 < (state.σ i).length ∧ c.2 < (state.σ i).length)
    (Hri : ∀ (k : K) (i : Fin n_chains),
      jax.randint k clusters.length i < clusters.length)
    (s : SweepScope R K n_chains)
    (hs : ∀ i, (s.σ i).sum = (state.σ i).sum ∧
      (s.σ i).length = (state.σ i).length) :
    ∀ i, ((sweepStep jax sampler machine params state s).σ i).sum = (state.σ i).sum ∧
      ((sweepStep jax sampler machine params state s).σ i).length = (state.σ i).length := by
  intro i
  show ((if do_accept jax sampler machine params state s i
      then (roundProposal jax sampler params state s).1 i else s.σ i).sum = _) ∧
    ((if do_accept jax sampler machine params state s i
      then (roundProposal jax sampler params state s).1 i else s.σ i).length = _)
  have hprop : (roundProposal jax sampler params state s).1 i =
      scalar_update_fun clusters (s.σ i)
        (jax.randint (roundKeys jax s).2.1 clusters.length i) := by
    rw [roundProposal, Hrule]
    rfl
  have hcid : jax.randint (roundKeys jax s).2.1 clusters.length i < clusters.length :=
    Hri _ i
  have hmem : clusters.getD (jax.randint (roundKeys jax s).2.1 clusters.length i) (0, 0) ∈
      clusters := by
    rw [List.getD_eq_getElem _ _ hcid]
    exact List.getElem_mem hcid
  have hb := Hb i _ hmem
  have h1 : (clusters.getD (jax.randint (roundKeys jax s).2.1 clusters.length i) (0, 0)).1 <
      (s.σ i).length := by rw [(hs i).2]; exact hb.1
  have h2 : (clusters.getD (jax.randint (roundKeys jax s).2.1 clusters.length i) (0, 0)).2 <
      (s.σ i).length := by rw [(hs i).2]; exact hb.2
  have hperm := scalar_update_fun_perm clusters (s.σ i)
    (jax.randint (roundKeys jax s).2.1 clusters.length i) h1 h2
  split
  · exact ⟨hprop ▸ (hperm.sum_eq.trans (hs i).1),
      hprop ▸ ((scalar_update_fun_length _ _ _).trans (hs i).2)⟩
  · exact hs i

/-- Iterating the sweep rounds with the exchange rule keeps every row's sum
and length. -/
theorem iterate_sweepStep_exchange_invariant
    (Hrule : sampler.rule.transition = exchange_transition jax clusters)
    (Hb : ∀ i : Fin n_chains, ∀ c ∈ clusters,
      c.1 < (state.σ i).length ∧ c.2 < (state.σ i).length)
    (Hri : ∀ (k : K) (i : Fin n_chains),
      jax.randint k clusters.length i < clusters.length)
    (n : ℕ) :
    ∀ i, (((sweepStep jax sampler machine params state)^[n]
        (initScope jax sampler machine params state)).σ i).sum = (state.σ i).sum ∧
      (((sweepStep jax sampler machine params state)^[n]
        (initScope jax sampler machine params state)).σ i).length = (state.σ i).length := by
  induction n with
  | zero => exact fun i => ⟨rfl, rfl⟩
  | succ n ih =>
      rw [Function.iterate_succ_apply']
      exact sweepStep_exchange_invariant jax sampler machine params clusters state
        Hrule Hb Hri _ ih

/-- C4: the exchange transition swaps the values at the two sites of the
chosen cluster entry and leaves all other sites unchanged, so each chain's
multiset of site values is preserved by the proposal; consequently each
chain's `sum(σ)` is invariant across an entire `sample_next` call that uses
the exchange rule. -/
theorem C4_exchange_conservation
    (Hrule : sampler.rule.transition = exchange_transition jax clusters)
    (Hb : ∀ i : Fin n_chains, ∀ c ∈ clusters,
      c.1 < (state.σ i).length ∧ c.2 < (state.σ i).length)
    (Hne : ∀ c ∈ clusters, c.1 ≠ c.2)
    (Hri : ∀ (k : K) (i : Fin n_chains),
      jax.randint k clusters.length i < clusters.length) :
    (∀ (key : K) (i : Fin n_chains),
      ((sampler.rule.transition params state.rule_state key state.σ).1 i).getD
          (clusters.getD (jax.randint key clusters.length i) (0, 0)).1 0 =
        (state.σ i).getD (clusters.getD (jax.randint key clusters.length i) (0, 0)).2 0 ∧
      ((sampler.rule.transition params state.rule_state key state.σ).1 i).getD
          (clusters.getD (jax.randint key clusters.length i) (0, 0)).2 0 =
        (state.σ i).getD (clusters.getD (jax.randint key clusters.length i) (0, 0)).1 0 ∧
      (∀ k, k ≠ (clusters.getD (jax.randint key clusters.length i) (0, 0)).1 →
        k ≠ (clusters.getD (jax.randint key clusters.length i) (0, 0)).2 →
        ((sampler.rule.transition params state.rule_state key state.σ).1 i).getD k 0 =
          (state.σ i).getD k 0) ∧
      ((sampler.rule.transition params state.rule_state key state.σ).1 i : Multiset ℤ) =
        (state.σ i : Multiset ℤ)) ∧
    (∀ i, (((sample_next jax sampler machine params state).1).σ i).sum =
      (state.σ i).sum) := by
  constructor
  · intro key i
    have hprop : (sampler.rule.transition params state.rule_state key state.σ).1 i =
        scalar_update_fun clusters (state.σ i) (jax.randint key clusters.length i) := by
      rw [Hrule]
      rfl
    have hcid : jax.randint key clusters.length i < clusters.length := Hri key i
    have hmem : clusters.getD (jax.randint key clusters.length i) (0, 0) ∈ clusters := by
      rw [List.getD_eq_getElem _ _ hcid]
      exact List.getElem_mem hcid
    have hb := Hb i _ hmem
    have hne := Hne _ hmem
    obtain ⟨g1, g2, g3⟩ :=
      scalar_update_fun_getD clusters (state.σ i) (jax.randint key clusters.length i)
        hb.1 hb.2 hne
    refine ⟨hprop ▸ g1, hprop ▸ g2, fun k hk1 hk2 => hprop ▸ g3 k hk1 hk2, ?_⟩
    rw [hprop, Multiset.coe_eq_coe]
    exact scalar_update_fun_perm clusters (state.σ i)
      (jax.randint key clusters.length i) hb.1 hb.2
  · intro i
    exact (iterate_sweepStep_exchange_invariant jax sampler machine params clusters state
      Hrule Hb Hri sampler.n_sweeps i).1

end ExchangeTheorems

/-- C4 witness: on the concrete two-chain exchange sampler with the single
cluster `(0, 1)` and rows `[1, -1]`, every row's sum is preserved by
`sample_next`. -/
theorem C4_exchange_conservation_witness :
    (∀ c ∈ [((0 : ℕ), (1 : ℕ))], c.1 ≠ c.2) ∧
    (∀ i, (((sample_next testJax testExchangeSampler testMachine () testState).1).σ i).sum =
      (testState.σ i).sum) :=
  ⟨by decide,
    (C4_exchange_conservation testJax testExchangeSampler testMachine () [(0, 1)]
      testState rfl (by decide) (by decide) (fun _ _ => Nat.one_pos)).2⟩

end Netket
